import Mathlib

/-!
Verification of the in-browser code-execution and grading pipeline of the
PyCrafters coding-practice platform, as implemented in
`src/components/CodeRunner.tsx` (main variant) and the legacy variant of the
same component (the `unnamed/part_000` source file).

Modelling conventions:
* JavaScript strings are Lean `String`s; `trim`/`toLowerCase` are modelled on
  the ASCII fragment (the test data of the platform is ASCII).
* The JavaScript `Number(s)` conversion is modelled exactly on finite values as
  an unnormalized fraction `Frac` (integer numerator, positive-natural
  denominator).  IEEE-754 rounding and overflow to `Infinity` are idealized
  away: numeric values are exact rationals.  The case-sensitive literals
  `"Infinity"`/`"NaN"` never reach the parser, because the grading pipeline
  lower-cases its inputs first, and `Number("infinity")` is `NaN`.
* Effectful steps (the Pyodide interpreter run, the Firestore write) are
  modelled as explicit data: an execution outcome parameter, and a list of
  store upsert records returned by the orchestrator.
-/

namespace PyCrafters

/-! ### JavaScript string primitives -/

/-- Character class of the JavaScript regexp `\s` (restricted to the code
points that can occur in the test data of the platform): space, tab, line feed,
carriage return, vertical tab, form feed, no-break space. -/
def isJsWhitespace (c : Char) : Bool :=
  c == ' ' || c == '\t' || c == '\n' || c == '\r' ||
  c == '\x0b' || c == '\x0c' || c == ' '

/-- Strip leading and trailing whitespace from a character list. -/
def jsTrimList (cs : List Char) : List Char :=
  ((cs.dropWhile isJsWhitespace).reverse.dropWhile isJsWhitespace).reverse

/-- JavaScript `String.prototype.trim()`. -/
def jsTrim (s : String) : String :=
  String.mk (jsTrimList s.toList)

/-- JavaScript `String.prototype.toLowerCase()` on the ASCII fragment:
lower-case every character. -/
def jsToLower (s : String) : String :=
  String.mk (s.toList.map Char.toLower)

/-- Tokenizer worker: cuts the character list at every run of characters
satisfying `p`, discarding empty pieces; `acc` holds the (reversed) current
token. This computes `s.split(regexp).filter(Boolean)` for a
character-class regexp. -/
def tokensByAux (p : Char → Bool) : List Char → List Char → List String
  | [], [] => []
  | [], acc => [String.mk acc.reverse]
  | c :: rest, acc =>
    if p c then
      match acc with
      | [] => tokensByAux p rest []
      | _ :: _ => String.mk acc.reverse :: tokensByAux p rest []
    else tokensByAux p rest (c :: acc)

/-- Computes `s.split(/class+/).filter(Boolean)`: the maximal nonempty runs of
characters not in the class `p`. -/
def tokensBy (p : Char → Bool) (s : String) : List String :=
  tokensByAux p s.toList []

/-- Splitting on the regexp `/\r?\n/` (JavaScript `input.split(/\r?\n/)`):
cut at every line feed, also consuming one carriage return immediately
before it. -/
def splitLinesAux : List Char → List Char → List String
  | [], acc => [String.mk acc.reverse]
  | '\r' :: '\n' :: rest, acc => String.mk acc.reverse :: splitLinesAux rest []
  | '\n' :: rest, acc => String.mk acc.reverse :: splitLinesAux rest []
  | c :: rest, acc => splitLinesAux rest (c :: acc)

/-- Computes `input.split(/\r?\n/).filter(Boolean)` from the `multiline_integers`
branch of `runCode`: split into lines, dropping empty lines. -/
def splitLinesJs (s : String) : List String :=
  (splitLinesAux s.toList []).filter (fun l => l != "")

/-! ### JavaScript `Number(s)` as an exact fraction -/

/-- An unnormalized fraction: the exact value of a JavaScript numeric
literal.  The denominator is kept positive by construction. -/
structure Frac where
  num : Int
  den : ℕ+
deriving DecidableEq, Repr

/-- The rational value of a `Frac`. -/
def Frac.toRat (f : Frac) : ℚ :=
  (f.num : ℚ) / ((f.den : ℕ) : ℚ)

/-- Numeric value of a (base-10) digit list, most significant first;
`acc` carries the value of the digits already consumed. -/
def natOfDigitsAux : List Char → Nat → Nat
  | [], acc => acc
  | d :: ds, acc => natOfDigitsAux ds (10 * acc + (d.toNat - 48))

/-- Numeric value of a (base-10) digit list. -/
def natOfDigits (ds : List Char) : Nat :=
  natOfDigitsAux ds 0

/-- Value of a hexadecimal digit, if any (code points: `0`-`9` are 48-57,
`a`-`f` are 97-102, `A`-`F` are 65-70). -/
def hexDigitVal (c : Char) : Option Nat :=
  let n := c.toNat
  if n ≥ 48 && n ≤ 57 then some (n - 48)
  else if n ≥ 97 && n ≤ 102 then some (n - 87)
  else if n ≥ 65 && n ≤ 70 then some (n - 55)
  else none

/-- Digits of a radix-`b` literal, accumulated left to right; `none` if some
character is not a digit below `b`. -/
def radixDigitsAux (b : Nat) : List Char → Nat → Option Nat
  | [], acc => some acc
  | c :: rest, acc =>
    match hexDigitVal c with
    | some v => if v < b then radixDigitsAux b rest (acc * b + v) else none
    | none => none

/-- A `0x`/`0o`/`0b` literal body: nonempty digit run in radix `b`. -/
def parseRadix (b : Nat) (cs : List Char) : Option Frac :=
  match cs with
  | [] => none
  | _ :: _ => (radixDigitsAux b cs 0).map (fun n => ⟨(n : Int), 1⟩)

/-- Exponent suffix of a decimal literal (the part after `e`/`E`): optional
sign, then a nonempty digit run that must end the string. -/
def parseExpSuffix (mant : Frac) (cs : List Char) : Option Frac :=
  let signAndRest : Bool × List Char :=
    match cs with
    | '+' :: r => (false, r)
    | '-' :: r => (true, r)
    | r => (false, r)
  let ds := signAndRest.2.takeWhile Char.isDigit
  let rest := signAndRest.2.dropWhile Char.isDigit
  if ds.isEmpty || !rest.isEmpty then none
  else if signAndRest.1 then
    some ⟨mant.num, mant.den * (10 : ℕ+) ^ natOfDigits ds⟩
  else
    some ⟨mant.num * (10 : Int) ^ natOfDigits ds, mant.den⟩

/-- An unsigned decimal literal: digits, an optional fraction part after a
dot, and an optional exponent; at least one digit must be present in the
integer or fraction part.  The value is exact:
`ip.fp = (ip·10^|fp| + fp) / 10^|fp|`. -/
def parseUnsignedDec (cs : List Char) : Option Frac :=
  let ip := cs.takeWhile Char.isDigit
  let r1 := cs.dropWhile Char.isDigit
  let fp :=
    match r1 with
    | '.' :: r => r.takeWhile Char.isDigit
    | _ => []
  let r2 :=
    match r1 with
    | '.' :: r => r.dropWhile Char.isDigit
    | _ => r1
  if ip.isEmpty && fp.isEmpty then none
  else
    let mant : Frac :=
      ⟨(natOfDigits ip * 10 ^ fp.length + natOfDigits fp : Nat), (10 : ℕ+) ^ fp.length⟩
    match r2 with
    | [] => some mant
    | 'e' :: r3 => parseExpSuffix mant r3
    | 'E' :: r3 => parseExpSuffix mant r3
    | _ => none

/-- A decimal literal with an optional leading sign. -/
def parseSignedDec (cs : List Char) : Option Frac :=
  match cs with
  | '+' :: r => parseUnsignedDec r
  | '-' :: r => (parseUnsignedDec r).map (fun f => ⟨-f.num, f.den⟩)
  | r => parseUnsignedDec r

/-- JavaScript `Number(s)` on its finite results: trim whitespace; the empty
string converts to `0`; otherwise a signed decimal literal or an unsigned
`0x`/`0o`/`0b` radix literal, which must consume the whole string; anything
else is `NaN`, modelled as `none`. -/
def jsNumber (s : String) : Option Frac :=
  match jsTrimList s.toList with
  | [] => some ⟨0, 1⟩
  | '0' :: c :: rest =>
    if c == 'x' || c == 'X' then parseRadix 16 rest
    else if c == 'o' || c == 'O' then parseRadix 8 rest
    else if c == 'b' || c == 'B' then parseRadix 2 rest
    else parseSignedDec ('0' :: c :: rest)
  | cs => parseSignedDec cs

/-! ### Grading engine (`handleRun` lines 266-281 / `handleSubmit` lines
320-334 of `CodeRunner.tsx`; the comparison block is duplicated verbatim in
both handlers) -/

/-- Model of `tryParseFloat` from the source: `Number(s)`, with `NaN` mapped to
`null`.  (`isNaN(n) ? null : n`.) -/
def tryParseFloat (s : String) : Option Frac :=
  jsNumber s

/-- Normalization `s.trim().toLowerCase()` applied to both the actual
and the expected output before comparison in the main variant. -/
def jsNormalize (s : String) : String :=
  jsToLower (jsTrim s)

/-- Exact-rational version of `Math.abs(x − y) < 1e-2`: decided by integer
arithmetic on the unnormalized fractions. -/
def fracWithinTol (x y : Frac) : Bool :=
  decide (100 * (x.num * ((y.den : ℕ) : Int) - y.num * ((x.den : ℕ) : Int)).natAbs
            < (x.den : ℕ) * (y.den : ℕ))

/-- The comparison applied to the two already-normalized strings: if both
convert to numbers, pass within the `1e-2` tolerance, otherwise pass on
exact string equality. -/
def gradeNormalizedPair (normalizedActual normalizedExpected : String) : Bool :=
  match tryParseFloat normalizedExpected, tryParseFloat normalizedActual with
  | some ef, some af => fracWithinTol ef af
  | _, _ => normalizedActual == normalizedExpected

/-- One grading comparison of the main variant: trim and lower-case both
sides, try the numeric parse on both, then tolerance or exact equality.
Direct model of the `passed` computation in `handleRun`/`handleSubmit`. -/
def gradePair (actualOutput expected : String) : Bool :=
  let normalizedExpected := jsNormalize expected
  let normalizedActual := jsNormalize actualOutput
  match tryParseFloat normalizedExpected, tryParseFloat normalizedActual with
  | some ef, some af => fracWithinTol ef af
  | _, _ => normalizedActual == normalizedExpected

/-- One grading comparison of the legacy variant (`unnamed/part_000`,
lines 196-201 and 264-270): the accumulated output is trimmed, then both
sides are lower-cased — the expected output is *not* trimmed — and compared
for exact equality only. -/
def legacyGrade (accumulatedOutput expected : String) : Bool :=
  let actualOutput := jsTrim accumulatedOutput
  let normalizedExpected := jsToLower expected
  let normalizedActual := jsToLower actualOutput
  normalizedActual == normalizedExpected

/-! ### Input Virtualizer (the `inputProcessor` closures of `runCode`,
`CodeRunner.tsx` lines 163-228) -/

/-- Observable outcome of one call of an `inputProcessor`: a string token,
JavaScript `undefined` (an out-of-range array read), or the thrown
`Error("No more input values available")` — the `ExhaustedInput` failure. -/
inductive ReadRes
  | tok (s : String)
  | undef
  | exhausted
deriving DecidableEq, Repr

/-- Run `n` successive reads of a stateful pull function, collecting the
observed results.  Each reader closure is single-use state threaded here
explicitly. -/
def runReads {σ : Type} (step : σ → ReadRes × σ) : Nat → σ → List ReadRes
  | 0, _ => []
  | n + 1, st => (step st).1 :: runReads step n (step st).2

/-- Branch for `single_integer` / `single_string`: the captured `inputValue`
variable; a read returns it and clears it, so the first read yields the full
input verbatim and every later read yields `""`.  Never throws. -/
def singleStep (inputValue : String) : ReadRes × String :=
  (.tok inputValue, "")

/-- Branch for `space_separated_integers`: `input.split(/\s+/).filter(Boolean)`.
-/
def spaceSepTokens (input : String) : List String :=
  tokensBy isJsWhitespace input

/-- Branch for `space_separated_with_operator`:
`input.split(/\s+/).filter(Boolean)` — textually the same tokenization,
kept as its own definition because the source keeps it as its own branch. -/
def withOperatorTokens (input : String) : List String :=
  tokensBy isJsWhitespace input

/-- Character class of the regexp `[\s\n]` used by the default fallback. -/
def isJsWhitespaceOrNewline (c : Char) : Bool :=
  isJsWhitespace c || c == '\n'

/-- Default fallback branch: `input.split(/[\s\n]+/).filter(Boolean)`. -/
def defaultTokens (input : String) : List String :=
  tokensBy isJsWhitespaceOrNewline input

/-- Sequential cursor reader shared by the three whitespace-splitting
branches: return `tokens[index++]` while in range, otherwise throw
`ExhaustedInput` (leaving the cursor in place). -/
def seqStep (tokens : List String) (index : Nat) : ReadRes × Nat :=
  if h : index < tokens.length then
    (.tok (tokens.get ⟨index, h⟩), index + 1)
  else
    (.exhausted, index)

/-- Mutable state of the `multiline_integers` closure. -/
structure MlState where
  lines : List String
  lineIndex : Nat
  currentLineNumbers : List String
  numberIndex : Nat
deriving DecidableEq, Repr

/-- Initial `multiline_integers` state:
`lines = input.split(/\r?\n/).filter(Boolean)`, no line tokenized yet. -/
def mlInit (input : String) : MlState :=
  ⟨splitLinesJs input, 0, [], 0⟩

/-- One read of the `multiline_integers` closure: drain the tokens of the current line;
 on exhaustion of the current line, lazily tokenize the next line
(`line.split(/\s+/).filter(Boolean)`) and return its first token (JavaScript
`undefined` if a whitespace-only line produced no token); with no lines left,
throw `ExhaustedInput`. -/
def mlStep (st : MlState) : ReadRes × MlState :=
  if h : st.numberIndex < st.currentLineNumbers.length then
    (.tok (st.currentLineNumbers.get ⟨st.numberIndex, h⟩),
     { st with numberIndex := st.numberIndex + 1 })
  else if h2 : st.lineIndex < st.lines.length then
    let line := st.lines.get ⟨st.lineIndex, h2⟩
    let cur := tokensBy isJsWhitespace line
    match cur with
    | [] =>
      (.undef,
       { st with lineIndex := st.lineIndex + 1, currentLineNumbers := [], numberIndex := 1 })
    | t :: _ =>
      (.tok t,
       { st with lineIndex := st.lineIndex + 1, currentLineNumbers := cur, numberIndex := 1 })
  else
    (.exhausted, st)

/-! ### Execution Supervisor (`runCode`, lines 230-247, and `withTimeout`,
lines 39-45) -/

/-- The fixed wall-clock deadline of `withTimeout`. -/
def TIMEOUT_MS : Nat := 3000

/-- The message of the `Error` rejected by `withTimeout` when the deadline
elapses first. -/
def timeoutMessage : String := "⏰ Time limit exceeded"

/-- Placeholder shown when the trimmed captured output is empty. -/
def noOutputPlaceholder : String := "[no output]"

/-- Outcome of awaiting `withTimeout(pyodide.runPythonAsync(code))`: either
the interpreter completed, or an error was raised (an interpreter runtime
error, the `ExhaustedInput` throw from the input hook, or the timeout
rejection with `timeoutMessage`). -/
inductive InterpOutcome
  | completed
  | raised (msg : String)
deriving DecidableEq, Repr

/-- The tail of `runCode` packaging one execution (lines 233-246): on
completion, the trimmed captured stdout text, defaulting to the placeholder
when empty (`rawActualOutput.trim() || "[no output]"`); on a raised error,
the captured output is still retrieved and the function rethrows
`Error(errOut || errorMessage)` — the captured text when non-empty, else the
message of the raised error.  `captured` is the value of
`sys.stdout.getvalue()` after the run. -/
def runCodeResult (outcome : InterpOutcome) (captured : String) : Except String String :=
  match outcome with
  | .completed =>
    let trimmed := jsTrim captured
    .ok (if trimmed == "" then noOutputPlaceholder else trimmed)
  | .raised msg =>
    .error (if captured == "" then msg else captured)

/-! ### Test Orchestrator (`handleSubmit`, lines 297-390) -/

/-- One test case, as supplied by the problem bank. -/
structure TestCase where
  input : String
  output : String
  hidden : Bool
deriving DecidableEq, Repr

/-- A question record, as far as the orchestrator consults it: its id (the
lookup key) and its input format tag. -/
structure Question where
  id : String
  input_format : String
deriving DecidableEq, Repr

/-- The Firestore write performed on full success (lines 369-379): a merge
upsert marking the problem solved for the user, stamped with the submission
time.  (`setDoc(userRef, {solved: {id: true}, ...timestamp}, {merge:
true})`.) -/
structure StoreUpsert where
  uid : String
  problemId : String
  solved : Bool
  timestamp : Nat
deriving DecidableEq, Repr

/-- Mutable accumulator of the `handleSubmit` loop: the `allPassed` flag,
the detail `lines` list, and the `anyHiddenFailed` flag. -/
structure SubmitAcc where
  allPassed : Bool
  anyHiddenFailed : Bool
  lines : List String
deriving DecidableEq, Repr

/-- Initial accumulator values (lines 305-307). -/
def initAcc : SubmitAcc := ⟨true, false, []⟩

/-- The generic verdict shown when some hidden test failed (line 362). -/
def hiddenFailMsg : String := "Some hidden test cases failed. Check for edge cases!"

/-- The success banner pushed on full success (line 368). -/
def successBanner : String := "🎉 All tests passed!"

/-- One iteration of the `for (const testCase of tests)` loop (lines
314-359).  `exec` abstracts `runCode(testCase, question)` for the current
code and question: `.ok` is the returned raw output, `.error` the message of
whatever `runCode` threw (timeout, `ExhaustedInput`, or interpreter runtime
error) — the inner `try/catch` converts either failure into a
record only. -/
def stepTest (exec : TestCase → Except String String) (acc : SubmitAcc)
    (t : TestCase) : SubmitAcc :=
  match exec t with
  | .ok actualOutput =>
    let passed := gradePair actualOutput t.output
    if passed then acc
    else if t.hidden then
      { acc with allPassed := false, anyHiddenFailed := true }
    else
      { acc with
        allPassed := false
        lines := acc.lines ++
          ["Input:\n" ++ t.input ++ "\n",
           "Expected Output:\n" ++ t.output ++ "\n",
           "Your Output:\n" ++ actualOutput ++ "\n"] }
  | .error msg =>
    if t.hidden then
      { acc with allPassed := false, anyHiddenFailed := true }
    else
      { acc with
        allPassed := false
        lines := acc.lines ++
          ["Input:\n" ++ t.input ++ "\n",
           "Error: " ++ msg ++ "\n"] }

/-- Pass verdict of one test under `exec`: a thrown execution counts as a
failure. -/
def testPasses (exec : TestCase → Except String String) (t : TestCase) : Bool :=
  match exec t with
  | .ok a => gradePair a t.output
  | .error _ => false

/-- The detail block a single test contributes to `lines`: empty for a
passing test and for every hidden test, the three-part input/expected/actual
block for a failing public execution, the two-part input/error block for a
throwing public execution. -/
def publicFailBlock (exec : TestCase → Except String String) (t : TestCase) :
    List String :=
  match exec t with
  | .ok a =>
    if gradePair a t.output then []
    else if t.hidden then []
    else
      ["Input:\n" ++ t.input ++ "\n",
       "Expected Output:\n" ++ t.output ++ "\n",
       "Your Output:\n" ++ a ++ "\n"]
  | .error msg =>
    if t.hidden then []
    else
      ["Input:\n" ++ t.input ++ "\n",
       "Error: " ++ msg ++ "\n"]

/-- The body of `handleSubmit` inside its outer `try` (lines 303-385), in
the exception monad: the only `throw` is the unknown-question guard (lines
309-312).  Returns the final `setOutput` string together with the list of
progress-store writes.  The hidden-failure early return (lines 361-364)
precedes the success handling; the banner push and the upsert both happen
only under `allPassed` and a signed-in user (lines 366-383). -/
def handleSubmitE (questions : List Question) (questionId : String)
    (user : Option String) (exec : TestCase → Except String String)
    (tests : List TestCase) (timestamp : Nat) :
    Except String (String × List StoreUpsert) :=
  match questions.find? (fun q => q.id == questionId) with
  | none => .error "Question not found"
  | some _ =>
    let acc := tests.foldl (stepTest exec) initAcc
    if acc.anyHiddenFailed then
      .ok (hiddenFailMsg, [])
    else
      match user, acc.allPassed with
      | some uid, true =>
        .ok (String.intercalate "\n" (acc.lines ++ ["", successBanner]),
             [⟨uid, questionId, true, timestamp⟩])
      | _, _ =>
        .ok (String.intercalate "\n" acc.lines, [])

/-- Full `handleSubmit` with its outer `catch` (lines 386-389): a thrown error
becomes the `Error: …` output and no store write. -/
def handleSubmit (questions : List Question) (questionId : String)
    (user : Option String) (exec : TestCase → Except String String)
    (tests : List TestCase) (timestamp : Nat) : String × List StoreUpsert :=
  match handleSubmitE questions questionId user exec tests timestamp with
  | .ok r => r
  | .error msg => ("Error: " ++ msg, [])

/-! ### Auxiliary notions for the stated properties -/

/-- Low-equivalence of two (test case, execution) pairs, as seen by a user
who may only learn public content and aggregate hidden pass/fail bits: the
visibility flags agree; public tests are identical and execute identically;
hidden tests merely agree on whether they pass. -/
def lowEquiv (e1 e2 : TestCase → Except String String)
    (t1 t2 : TestCase) : Prop :=
  t1.hidden = t2.hidden
  ∧ (t1.hidden = false → t1 = t2 ∧ e1 t1 = e2 t2)
  ∧ (t1.hidden = true → testPasses e1 t1 = testPasses e2 t2)

/-- A sample question record used to instantiate the universal theorems. -/
def qDemo : Question := ⟨"easy-100", "single_integer"⟩

/-- An execution stub whose captured output is the same fixed string on
every test. -/
def execConst (out : String) : TestCase → Except String String :=
  fun _ => .ok out

/-- An execution stub that times out on every test: `runCode` rethrows the
`withTimeout` rejection. -/
def execTimeout : TestCase → Except String String :=
  fun _ => .error timeoutMessage


lemma fracWithinTol_iff (x y : Frac) :
    fracWithinTol x y = true ↔ |x.toRat - y.toRat| < 1 / 100 := by
  have hb : (0:ℚ) < ((x.den : ℕ) : ℚ) := by exact_mod_cast x.den.pos
  have hd : (0:ℚ) < ((y.den : ℕ) : ℚ) := by exact_mod_cast y.den.pos
  rw [fracWithinTol, decide_eq_true_eq, Frac.toRat, Frac.toRat,
      div_sub_div _ _ hb.ne' hd.ne', abs_div, abs_of_pos (mul_pos hb hd),
      div_lt_div_iff₀ (mul_pos hb hd) (by norm_num : (0:ℚ) < 100), one_mul]
  have hcast :
      |((x.num : ℚ) * ((y.den : ℕ) : ℚ) - ((x.den : ℕ) : ℚ) * (y.num : ℚ))|
        = (((x.num * ((y.den : ℕ) : Int) - y.num * ((x.den : ℕ) : Int)).natAbs : ℕ) : ℚ) := by
    rw [Int.cast_natAbs]
    push_cast
    ring_nf
  rw [hcast]
  rw [mul_comm]
  exact_mod_cast Iff.rfl

lemma stepTest_eq (exec : TestCase → Except String String) (acc : SubmitAcc)
    (t : TestCase) :
    stepTest exec acc t =
      ⟨acc.allPassed && testPasses exec t,
       acc.anyHiddenFailed || (t.hidden && !testPasses exec t),
       acc.lines ++ publicFailBlock exec t⟩ := by
  simp only [stepTest, testPasses, publicFailBlock]
  cases hx : exec t with
  | ok a =>
    cases hp : gradePair a t.output with
    | true => simp [hp]
    | false =>
      cases hh : t.hidden with
      | true => simp [hp, hh]
      | false => simp [hp, hh]
  | error m =>
    cases hh : t.hidden with
    | true => simp [hh]
    | false => simp [hh]

lemma foldl_stepTest (exec : TestCase → Except String String)
    (tests : List TestCase) (acc : SubmitAcc) :
    tests.foldl (stepTest exec) acc =
      ⟨acc.allPassed && tests.all (testPasses exec),
       acc.anyHiddenFailed || tests.any (fun t => t.hidden && !testPasses exec t),
       acc.lines ++ tests.flatMap (publicFailBlock exec)⟩ := by
  induction tests generalizing acc with
  | nil => simp
  | cons t ts ih =>
    rw [List.foldl_cons, stepTest_eq, ih]
    simp [List.all_cons, List.any_cons, Bool.and_assoc, Bool.or_assoc]

lemma handleSubmitE_none {qs : List Question} {qid : String}
    (user : Option String) (exec : TestCase → Except String String)
    (tests : List TestCase) (stamp : Nat)
    (h : qs.find? (fun q => q.id == qid) = none) :
    handleSubmitE qs qid user exec tests stamp
      = .error "Question not found" := by
  unfold handleSubmitE
  rw [h]

lemma handleSubmitE_some {qs : List Question} {qid : String} {q : Question}
    (user : Option String) (exec : TestCase → Except String String)
    (tests : List TestCase) (stamp : Nat)
    (h : qs.find? (fun q => q.id == qid) = some q) :
    handleSubmitE qs qid user exec tests stamp
      = (let acc := tests.foldl (stepTest exec) initAcc
         if acc.anyHiddenFailed then .ok (hiddenFailMsg, [])
         else
           match user, acc.allPassed with
           | some uid, true =>
             .ok (String.intercalate "\n" (acc.lines ++ ["", successBanner]),
                  [⟨uid, qid, true, stamp⟩])
           | _, _ => .ok (String.intercalate "\n" acc.lines, [])) := by
  unfold handleSubmitE
  rw [h]

lemma publicFailBlock_hidden {exec : TestCase → Except String String}
    {t : TestCase} (h : t.hidden = true) : publicFailBlock exec t = [] := by
  unfold publicFailBlock
  cases hx : exec t with
  | ok a => cases hp : gradePair a t.output <;> simp [h, hp]
  | error m => simp [h]

lemma publicFailBlock_passes {exec : TestCase → Except String String}
    {t : TestCase} (h : testPasses exec t = true) :
    publicFailBlock exec t = [] := by
  unfold publicFailBlock
  unfold testPasses at h
  cases hx : exec t with
  | ok a =>
    rw [hx] at h
    simp only [] at h
    simp [h]
  | error m =>
    rw [hx] at h
    simp at h

lemma blocks_nil_of_all_pass {exec : TestCase → Except String String}
    {tests : List TestCase} (h : tests.all (testPasses exec) = true) :
    tests.flatMap (publicFailBlock exec) = [] := by
  induction tests with
  | nil => rfl
  | cons t ts ih =>
    rw [List.all_cons, Bool.and_eq_true] at h
    rw [List.flatMap_cons, publicFailBlock_passes h.1, ih h.2]
    rfl

lemma anyHidden_false_of_all_pass {exec : TestCase → Except String String}
    {tests : List TestCase} (h : tests.all (testPasses exec) = true) :
    tests.any (fun t => t.hidden && !testPasses exec t) = false := by
  induction tests with
  | nil => rfl
  | cons t ts ih =>
    rw [List.all_cons, Bool.and_eq_true] at h
    rw [List.any_cons, ih h.2, h.1]
    simp

lemma testPasses_congr {e1 e2 : TestCase → Except String String}
    {t1 t2 : TestCase} (h : lowEquiv e1 e2 t1 t2) :
    testPasses e1 t1 = testPasses e2 t2 := by
  obtain ⟨hh, hpub, hhid⟩ := h
  cases ht : t1.hidden with
  | true => exact hhid ht
  | false =>
    obtain ⟨rfl, hx⟩ := hpub ht
    simp only [testPasses, hx]

lemma publicFailBlock_congr {e1 e2 : TestCase → Except String String}
    {t1 t2 : TestCase} (h : lowEquiv e1 e2 t1 t2) :
    publicFailBlock e1 t1 = publicFailBlock e2 t2 := by
  obtain ⟨hh, hpub, hhid⟩ := h
  cases ht : t1.hidden with
  | true =>
    rw [publicFailBlock_hidden ht, publicFailBlock_hidden (hh ▸ ht)]
  | false =>
    obtain ⟨rfl, hx⟩ := hpub ht
    simp only [publicFailBlock, hx]

lemma forall2_components {e1 e2 : TestCase → Except String String}
    {ts1 ts2 : List TestCase} (h : List.Forall₂ (lowEquiv e1 e2) ts1 ts2) :
    ts1.all (testPasses e1) = ts2.all (testPasses e2)
    ∧ ts1.any (fun t => t.hidden && !testPasses e1 t)
        = ts2.any (fun t => t.hidden && !testPasses e2 t)
    ∧ ts1.flatMap (publicFailBlock e1) = ts2.flatMap (publicFailBlock e2) := by
  induction h with
  | nil => exact ⟨rfl, rfl, rfl⟩
  | cons hr hrest ih =>
    obtain ⟨ih1, ih2, ih3⟩ := ih
    refine ⟨?_, ?_, ?_⟩
    · rw [List.all_cons, List.all_cons, ih1, testPasses_congr hr]
    · rw [List.any_cons, List.any_cons, ih2, testPasses_congr hr, hr.1]
    · rw [List.flatMap_cons, List.flatMap_cons, ih3, publicFailBlock_congr hr]

/-- C2: the user-visible report of `SubmitAll` never depends on the input,
expected output, or actual output of a hidden test beyond its pass/fail bit
(noninterference: low-equivalent test suites produce identical reports and
store writes); and whenever at least one hidden test fails, the entire
visible result is the single generic hidden-failure message, with no
per-test detail for failing public tests. -/
theorem submit_hidden_secrecy :
    (∀ qs qid user e1 e2 ts1 ts2 stamp,
        List.Forall₂ (lowEquiv e1 e2) ts1 ts2 →
        handleSubmit qs qid user e1 ts1 stamp
          = handleSubmit qs qid user e2 ts2 stamp)
    ∧ (∀ qs qid user exec tests stamp,
        (qs.find? (fun q => q.id == qid)).isSome = true →
        tests.any (fun t => t.hidden && !testPasses exec t) = true →
        handleSubmit qs qid user exec tests stamp = (hiddenFailMsg, [])) := by
  constructor
  · intro qs qid user e1 e2 ts1 ts2 stamp h
    obtain ⟨h1, h2, h3⟩ := forall2_components h
    unfold handleSubmit handleSubmitE
    rw [foldl_stepTest, foldl_stepTest]
    simp only [initAcc, Bool.true_and, Bool.false_or, List.nil_append]
    rw [h1, h2, h3]
  · intro qs qid user exec tests stamp hfind hany
    cases hq : qs.find? (fun q => q.id == qid) with
    | none => rw [hq] at hfind; exact absurd hfind (by simp)
    | some q =>
      unfold handleSubmit
      rw [handleSubmitE_some user exec tests stamp hq, foldl_stepTest]
      simp only [initAcc, Bool.true_and, Bool.false_or, List.nil_append]
      rw [hany]
      rfl

/-- C3: every per-test failure (timeout, `ExhaustedInput`, interpreter
runtime error — any `.error` outcome of `runCode`) is caught inside the
loop and recorded as the failure of that single test only: when the
question is found, `handleSubmitE` never propagates an error, the verdict
flags aggregate over every test of the list, and the detail list is the
concatenation of exactly one block per failing public test; only an
unknown question id makes the call abort with the thrown
`Question not found`. -/
theorem submit_isolates_failures :
    ∀ qs qid user exec tests stamp,
      ((qs.find? (fun q => q.id == qid)).isSome = true →
        (handleSubmitE qs qid user exec tests stamp).isOk = true)
      ∧ (qs.find? (fun q => q.id == qid) = none →
        handleSubmitE qs qid user exec tests stamp
          = .error "Question not found")
      ∧ (tests.foldl (stepTest exec) initAcc).allPassed
          = tests.all (testPasses exec)
      ∧ (tests.foldl (stepTest exec) initAcc).anyHiddenFailed
          = tests.any (fun t => t.hidden && !testPasses exec t)
      ∧ (tests.foldl (stepTest exec) initAcc).lines
          = tests.flatMap (publicFailBlock exec) := by
  intro qs qid user exec tests stamp
  refine ⟨?_, ?_, ?_, ?_, ?_⟩
  · intro hfind
    cases hq : qs.find? (fun q => q.id == qid) with
    | none => rw [hq] at hfind; exact absurd hfind (by simp)
    | some q =>
      rw [handleSubmitE_some user exec tests stamp hq, foldl_stepTest]
      simp only [initAcc, Bool.true_and, Bool.false_or, List.nil_append]
      cases hany : tests.any (fun t => t.hidden && !testPasses exec t) with
      | true => rfl
      | false =>
        cases user with
        | none => rfl
        | some uid => cases hall : tests.all (testPasses exec) <;> rfl
  · intro hfind
    exact handleSubmitE_none user exec tests stamp hfind
  · rw [foldl_stepTest]; simp [initAcc]
  · rw [foldl_stepTest]; simp [initAcc]
  · rw [foldl_stepTest]; simp [initAcc]

/-- C4 (amended): when a user is signed in and every test passes, the
progress store receives exactly one solved-upsert keyed by the question id
and the submission timestamp, and the report ends with the success banner;
when any test fails, no upsert occurs for any user; a signed-out call never
performs an upsert, and a signed-out call in which every test passes
returns the empty report, without the banner. -/
theorem submit_success_upsert :
    ∀ qs qid uid exec tests stamp,
      (qs.find? (fun q => q.id == qid)).isSome = true →
      (tests.all (testPasses exec) = true →
        (handleSubmit qs qid (some uid) exec tests stamp).2
            = [⟨uid, qid, true, stamp⟩]
        ∧ (∃ s, (handleSubmit qs qid (some uid) exec tests stamp).1
            = s ++ successBanner)
        ∧ handleSubmit qs qid none exec tests stamp = ("", []))
      ∧ (tests.all (testPasses exec) = false →
        ∀ user, (handleSubmit qs qid user exec tests stamp).2 = [])
      ∧ (handleSubmit qs qid none exec tests stamp).2 = [] := by
  intro qs qid uid exec tests stamp hfind
  cases hq : qs.find? (fun q => q.id == qid) with
  | none => rw [hq] at hfind; exact absurd hfind (by simp)
  | some q =>
    refine ⟨?_, ?_, ?_⟩
    · intro hall
      refine ⟨?_, ?_, ?_⟩
      · unfold handleSubmit
        rw [handleSubmitE_some (some uid) exec tests stamp hq, foldl_stepTest]
        simp only [initAcc, Bool.true_and, Bool.false_or, List.nil_append]
        rw [hall, anyHidden_false_of_all_pass hall, blocks_nil_of_all_pass hall]
        rfl
      · unfold handleSubmit
        rw [handleSubmitE_some (some uid) exec tests stamp hq, foldl_stepTest]
        simp only [initAcc, Bool.true_and, Bool.false_or, List.nil_append]
        rw [hall, anyHidden_false_of_all_pass hall, blocks_nil_of_all_pass hall]
        exact ⟨"\n", rfl⟩
      · unfold handleSubmit
        rw [handleSubmitE_some none exec tests stamp hq, foldl_stepTest]
        simp only [initAcc, Bool.true_and, Bool.false_or, List.nil_append]
        rw [anyHidden_false_of_all_pass hall, blocks_nil_of_all_pass hall]
        rfl
    · intro hall user
      unfold handleSubmit
      rw [handleSubmitE_some user exec tests stamp hq, foldl_stepTest]
      simp only [initAcc, Bool.true_and, Bool.false_or, List.nil_append]
      rw [hall]
      cases hany : tests.any (fun t => t.hidden && !testPasses exec t) with
      | true => rfl
      | false => cases user <;> rfl
    · unfold handleSubmit
      rw [handleSubmitE_some none exec tests stamp hq, foldl_stepTest]
      simp only [initAcc, Bool.true_and, Bool.false_or, List.nil_append]
      cases hany : tests.any (fun t => t.hidden && !testPasses exec t) with
      | true => rfl
      | false => cases tests.all (testPasses exec) <;> rfl

/-- Witness for `submit_hidden_secrecy`: two suites differing only in the
content of a failing hidden test produce the identical report, namely the
generic message, with no store write. -/
theorem submit_hidden_secrecy_witness :
    handleSubmit [qDemo] "easy-100" (some "u") (execConst "no")
        [⟨"secret input A", "42", true⟩] 0
      = handleSubmit [qDemo] "easy-100" (some "u") (execConst "no")
        [⟨"secret input B", "43", true⟩] 0
    ∧ handleSubmit [qDemo] "easy-100" (some "u") (execConst "no")
        [⟨"secret input A", "42", true⟩] 0 = (hiddenFailMsg, []) := by
  constructor
  · refine submit_hidden_secrecy.1 _ _ _ _ _ _ _ _ ?_
    refine List.Forall₂.cons ⟨rfl, ?_, ?_⟩ List.Forall₂.nil
    · intro h
      exact absurd h (by decide)
    · intro _
      decide
  · exact submit_hidden_secrecy.2 _ _ _ _ _ _ (by decide) (by decide)

/-- Witness for `submit_isolates_failures`: a suite whose every test times
out still settles without aborting, while an unknown question id aborts. -/
theorem submit_isolates_failures_witness :
    (handleSubmitE [qDemo] "easy-100" (some "u") execTimeout
        [⟨"1", "a", false⟩, ⟨"2", "b", true⟩] 0).isOk = true
    ∧ handleSubmitE [] "easy-100" (some "u") execTimeout
        [⟨"1", "a", false⟩] 0 = .error "Question not found" :=
  ⟨(submit_isolates_failures [qDemo] "easy-100" (some "u") execTimeout
      [⟨"1", "a", false⟩, ⟨"2", "b", true⟩] 0).1 (by decide),
   (submit_isolates_failures [] "easy-100" (some "u") execTimeout
      [⟨"1", "a", false⟩] 0).2.1 rfl⟩

/-- Witness for `submit_success_upsert`: a fully passing public suite under
a signed-in user yields exactly one solved-upsert and a banner-terminated
report. -/
theorem submit_success_upsert_witness :
    ((handleSubmit [qDemo] "easy-100" (some "u") (execConst "ok")
        [⟨"1", "ok", false⟩] 7).2 = [⟨"u", "easy-100", true, 7⟩]
      ∧ (∃ s, (handleSubmit [qDemo] "easy-100" (some "u") (execConst "ok")
          [⟨"1", "ok", false⟩] 7).1 = s ++ successBanner)
      ∧ handleSubmit [qDemo] "easy-100" none (execConst "ok")
          [⟨"1", "ok", false⟩] 7 = ("", []))
    ∧ (handleSubmit [qDemo] "easy-100" none (execConst "ok")
        [⟨"1", "ok", false⟩] 7).2 = [] :=
  ⟨(submit_success_upsert [qDemo] "easy-100" "u" (execConst "ok")
      [⟨"1", "ok", false⟩] 7 (by decide)).1 (by decide),
   (submit_success_upsert [qDemo] "easy-100" "u" (execConst "ok")
      [⟨"1", "ok", false⟩] 7 (by decide)).2.2⟩

/-- Counterexample to C4 as stated: with no signed-in user, a `SubmitAll`
call in which every test passes performs no solved-upsert at all and its
report is empty rather than ending with the success banner. -/
theorem submit_success_upsert_cex :
    List.all [⟨"1", "ok", false⟩] (testPasses (execConst "ok")) = true
    ∧ handleSubmit [qDemo] "easy-100" none (execConst "ok")
        [⟨"1", "ok", false⟩] 7 = ("", [])
    ∧ (("" : String) == successBanner) = false := by
  refine ⟨by decide, ?_, by decide⟩
  decide

lemma wsOrNl_eq_ws : isJsWhitespaceOrNewline = isJsWhitespace := by
  funext c
  cases h : c == '\n' with
  | false => simp [isJsWhitespaceOrNewline, h]
  | true =>
    have hc : c = '\n' := by
      simpa using h
    subst hc
    rfl

/-- C1: grading first trims and lower-cases both strings, then attempts the
numeric parse on both; when both parse the pair passes exactly when the
absolute difference is below `1e-2`, otherwise exactly when the normalized
strings are equal; in particular expected `"3.14159"` vs actual `"3.14"`
passes, expected `"True"` vs actual `"true"` passes, and expected `"5"` vs
actual `"5.02"` fails. -/
theorem grading_comparison :
    (∀ a e, gradePair a e
        = gradeNormalizedPair (jsNormalize a) (jsNormalize e))
    ∧ (∀ a e ef af,
        tryParseFloat (jsNormalize e) = some ef →
        tryParseFloat (jsNormalize a) = some af →
        (gradePair a e = true ↔ |af.toRat - ef.toRat| < 1 / 100))
    ∧ (∀ a e,
        tryParseFloat (jsNormalize e) = none ∨
          tryParseFloat (jsNormalize a) = none →
        (gradePair a e = true ↔ jsNormalize a = jsNormalize e))
    ∧ gradePair "3.14" "3.14159" = true
    ∧ gradePair "true" "True" = true
    ∧ gradePair "5.02" "5" = false := by
  refine ⟨fun a e => rfl, ?_, ?_, by decide, by decide, by decide⟩
  · intro a e ef af he ha
    unfold gradePair
    dsimp only
    rw [he, ha]
    rw [abs_sub_comm]
    exact fracWithinTol_iff ef af
  · intro a e h
    unfold gradePair
    dsimp only
    rcases h with h | h
    · rw [h]
      cases ha : tryParseFloat (jsNormalize a) <;> simp
    · rw [h]
      cases he : tryParseFloat (jsNormalize e) <;> simp

/-- Witness for `grading_comparison`: instantiating the tolerance clause at
the spec example shows the parsed values of `"3.14"` and `"3.14159"` are
within `1e-2`, and the string clause at the boolean example shows the
normalized strings agree. -/
theorem grading_comparison_witness :
    |Frac.toRat ⟨314, 100⟩ - Frac.toRat ⟨314159, 100000⟩| < 1 / 100
    ∧ jsNormalize "true" = jsNormalize "True" :=
  ⟨(grading_comparison.2.1 "3.14" "3.14159" ⟨314159, 100000⟩ ⟨314, 100⟩
      (by decide) (by decide)).mp (by decide),
   (grading_comparison.2.2.1 "true" "True" (Or.inl (by decide))).mp
      (by decide)⟩

/-- C5: for `multiline_integers` on `"3\n1 2 3"`, the first four reads
yield the tokens `"3"`, `"1"`, `"2"`, `"3"` (the current line is drained
before the next line is tokenized) and the fifth read throws the
`ExhaustedInput` error. -/
theorem multiline_reads_example :
    runReads mlStep 5 (mlInit "3\n1 2 3")
      = [ReadRes.tok "3", ReadRes.tok "1", ReadRes.tok "2", ReadRes.tok "3",
         ReadRes.exhausted] := by
  decide

/-- C6: for `single_integer` / `single_string`, the first read returns the
complete input text verbatim and every later read returns the empty
string; no read is `exhausted` (or `undef`). -/
theorem single_format_reads :
    ∀ (input : String) (n : Nat),
      runReads singleStep (n + 1) input
        = ReadRes.tok input :: List.replicate n (ReadRes.tok "") := by
  intro input n
  have h : ∀ m, runReads singleStep m "" = List.replicate m (ReadRes.tok "") := by
    intro m
    induction m with
    | zero => rfl
    | succ k ih => simp [runReads, singleStep, ih, List.replicate_succ]
  simp [runReads, singleStep, h n]

/-- C7: the three whitespace-splitting formats — `space_separated_integers`,
`space_separated_with_operator`, and the default fallback — tokenize every
input identically, so their readers are extensionally equal: every read at
every position returns the same result, including the position of the
`ExhaustedInput` failure. -/
theorem whitespace_formats_equivalent :
    ∀ input : String,
      spaceSepTokens input = withOperatorTokens input
      ∧ spaceSepTokens input = defaultTokens input
      ∧ ∀ n index,
          runReads (seqStep (spaceSepTokens input)) n index
            = runReads (seqStep (withOperatorTokens input)) n index
          ∧ runReads (seqStep (spaceSepTokens input)) n index
            = runReads (seqStep (defaultTokens input)) n index := by
  intro input
  have h2 : spaceSepTokens input = defaultTokens input := by
    rw [spaceSepTokens, defaultTokens, wsOrNl_eq_ws]
  exact ⟨rfl, h2, fun n index => ⟨rfl, by rw [h2]⟩⟩

/-- C8: when the interpreter raises an error, the packaged result is always
a failure, whose message is the captured output when that output is
non-empty and the message of the raised error otherwise. -/
theorem runtime_error_reporting :
    ∀ msg captured,
      (∃ m, runCodeResult (.raised msg) captured = .error m)
      ∧ (captured ≠ "" → runCodeResult (.raised msg) captured = .error captured)
      ∧ (captured = "" → runCodeResult (.raised msg) captured = .error msg) := by
  intro msg captured
  refine ⟨⟨if captured == "" then msg else captured, rfl⟩, ?_, ?_⟩
  · intro h
    simp [runCodeResult, h]
  · intro h
    subst h
    rfl

/-- Witness for `runtime_error_reporting`: a raised error with partial
captured output reports the captured text; with empty captured output it
reports the error message. -/
theorem runtime_error_reporting_witness :
    runCodeResult (.raised "boom") "partial out" = .error "partial out"
    ∧ runCodeResult (.raised "boom") "" = .error "boom" :=
  ⟨(runtime_error_reporting "boom" "partial out").2.1 (by decide),
   (runtime_error_reporting "boom" "").2.2 rfl⟩

/-- C9 (amended): in the main variant both sides of every grading
comparison are trimmed and lower-cased before being compared; in the legacy
variant (`unnamed/part_000`) the actual output is trimmed and both sides are
lower-cased, but the expected output is not trimmed. -/
theorem grading_normalization_variants :
    ∀ actual expected,
      gradePair actual expected
        = gradeNormalizedPair (jsNormalize actual) (jsNormalize expected)
      ∧ legacyGrade actual expected
        = (jsToLower (jsTrim actual) == jsToLower expected) := by
  intro a e
  exact ⟨rfl, rfl⟩

/-- Counterexample to C9 as stated: in the legacy variant the expected
output is not trimmed before comparison — a trailing space in the expected
output flips the verdict (while the main variant passes the same pair). -/
theorem grading_normalization_variants_cex :
    legacyGrade "5\n" "5 " = false
    ∧ legacyGrade "5\n" "5" = true
    ∧ gradePair "5\n" "5 " = true := by
  decide

/-- C10: the numeric parser maps the empty string to `0` and an execution
whose trimmed captured output is empty is reported as `"[no output]"`;
hence a test whose expected output normalizes to the empty string passes
exactly when the actual output parses to a number of absolute value below
`1e-2`, and a program that prints nothing never passes such a test by
string equality. -/
theorem empty_expected_grading :
    tryParseFloat "" = some ⟨0, 1⟩
    ∧ Frac.toRat ⟨0, 1⟩ = 0
    ∧ (∀ captured, jsTrim captured = "" →
        runCodeResult .completed captured = .ok noOutputPlaceholder)
    ∧ (∀ a e, jsNormalize e = "" →
        (gradePair a e = true ↔
          ∃ f, tryParseFloat (jsNormalize a) = some f ∧ |f.toRat| < 1 / 100))
    ∧ (∀ e, jsNormalize e = "" →
        gradePair noOutputPlaceholder e = false) := by
  refine ⟨by decide, by norm_num [Frac.toRat], ?_, ?_, ?_⟩
  · intro captured h
    unfold runCodeResult
    rw [h]
    rfl
  · intro a e he
    unfold gradePair
    rw [he]
    dsimp only
    have h0 : tryParseFloat "" = some ⟨0, 1⟩ := by decide
    rw [h0]
    cases ha : tryParseFloat (jsNormalize a) with
    | none =>
      have hne : jsNormalize a ≠ "" := by
        intro hc
        rw [hc, h0] at ha
        exact Option.noConfusion ha
      simp [hne]
    | some f =>
      have : fracWithinTol ⟨0, 1⟩ f = true ↔ |f.toRat| < 1 / 100 := by
        rw [fracWithinTol_iff]
        have : Frac.toRat ⟨0, 1⟩ = 0 := by norm_num [Frac.toRat]
        rw [this, zero_sub, abs_neg]
      simp [this]
  · intro e he
    unfold gradePair
    rw [he]
    dsimp only
    decide

/-- Witness for `empty_expected_grading`: a run that prints only whitespace
is reported as the placeholder; grading `"0.001"` against a whitespace-only
expected output passes via the numeric clause, and the parsed value is
within tolerance; the placeholder itself never passes. -/
theorem empty_expected_grading_witness :
    runCodeResult .completed " \n " = .ok noOutputPlaceholder
    ∧ (∃ f, tryParseFloat (jsNormalize "0.001") = some f ∧ |f.toRat| < 1 / 100)
    ∧ gradePair noOutputPlaceholder " " = false :=
  ⟨empty_expected_grading.2.2.1 " \n " (by decide),
   (empty_expected_grading.2.2.2.1 "0.001" " " (by decide)).mp (by decide),
   empty_expected_grading.2.2.2.2 " " (by decide)⟩

end PyCrafters
